import Mathlib

/-!
# Verification of the tchat streaming-generation core

A shallow embedding, in Lean 4, of the parts of the `tchat` terminal chat
client that its design document makes claims about:

* the bounded conversation history (`internal/history`),
* the multimodal input resolver (`internal/parser`, `internal/media`),
* the generation orchestrator (`internal/flows`),
* the cancellation coordinator (the signal-handler goroutine and the
  `genCancel` register in `main`),
* the history snapshot persistence (`internal/db`, `Store.SaveHistory`).

Go machine integers that hold message counts, durations in milliseconds or
HTTP status codes are represented by `Nat`/`Int` (no overflow is reachable at
these magnitudes); effects (filesystem, network, clock, SQL transaction) are
passed in explicitly as environment records so that every definition is an
executable function of its inputs.
-/

namespace TChat

/-! ## String helpers mirroring the Go standard library -/

/-- One step of `strings.Fields`: split a character list on runs of
whitespace, accumulating the current (reversed) word. -/
def fieldsAux : List Char → List Char → List (List Char)
  | [], acc => if acc.isEmpty then [] else [acc.reverse]
  | c :: cs, acc =>
    if c.isWhitespace then
      if acc.isEmpty then fieldsAux cs [] else acc.reverse :: fieldsAux cs []
    else fieldsAux cs (c :: acc)

/-- Go `strings.Fields`: the whitespace-delimited tokens of a string. -/
def fields (s : String) : List String :=
  (fieldsAux s.toList []).map List.asString

/-- Go `strings.TrimRight`: remove trailing characters contained in `cutset`. -/
def trimRightCutset (s : String) (cutset : List Char) : String :=
  ((s.toList.reverse.dropWhile (fun c => cutset.contains c)).reverse).asString

/-- Scan of the reversed path used by `filepath.Ext`: stop at a path
separator, return the suffix from the last dot (inclusive). -/
def extFromRev : List Char → List Char → List Char
  | [], _ => []
  | c :: cs, acc =>
    if c = '/' then []
    else if c = '.' then '.' :: acc
    else extFromRev cs (c :: acc)

/-- Go `filepath.Ext`: the file name extension of the last path element,
beginning at its final dot; empty when there is none. -/
def filepathExt (s : String) : String :=
  (extFromRev s.toList.reverse []).asString

/-! ## Message model (`github.com/firebase/genkit/go/ai`)

The genkit message type, restricted to the two part shapes tchat builds:
plain text parts and media parts carrying a content type and a data URI. -/

inductive Part where
  | text (text : String)
  | media (contentType : String) (url : String)
deriving DecidableEq, Repr

structure Message where
  role : String
  content : List Part
deriving DecidableEq, Repr

def NewTextPart (t : String) : Part := Part.text t

def NewMediaPart (mime uri : String) : Part := Part.media mime uri

def NewUserMessage (parts : List Part) : Message := ⟨"user", parts⟩

def NewUserTextMessage (t : String) : Message := ⟨"user", [Part.text t]⟩

def NewModelTextMessage (t : String) : Message := ⟨"model", [Part.text t]⟩

/-! ## History manager (`internal/history`, src/unnamed/part_003) -/

/-- The `history.config` record. `maxMessages` is a Go `int`, embedded as `Int`. -/
structure HistoryConfig where
  maxMessages : Int
deriving DecidableEq, Repr

/-- A `history.Option` mutates the configuration record. -/
abbrev HistoryOption := HistoryConfig → HistoryConfig

/-- Option `history.WithMaxMessages`. -/
def WithMaxMessages (n : Int) : HistoryOption :=
  fun cfg => { cfg with maxMessages := n }

/-- The `history.HistoryManager` state (the mutex is the concurrency-control layer and
has no sequential content; the state it guards is `config` and `messages`). -/
structure HistoryManager where
  config : HistoryConfig
  messages : List Message
deriving DecidableEq, Repr

/-- Constructor `history.NewHistoryManager`: defaults `maxMessages` to 5, applies the
options in order, then normalizes a negative `maxMessages` back to 5. -/
def NewHistoryManager (opts : List HistoryOption) : HistoryManager :=
  let cfg := opts.foldl (fun c f => f c) ⟨5⟩
  let cfg := if cfg.maxMessages < 0 then ⟨5⟩ else cfg
  ⟨cfg, []⟩

/-- Method `HistoryManager.enforceLimits`: when `maxMessages > 0` and the list is
longer, keep only the last `maxMessages` messages. -/
def enforceLimits (h : HistoryManager) : HistoryManager :=
  let msgs := h.messages
  if 0 < h.config.maxMessages ∧ h.config.maxMessages < (msgs.length : Int) then
    { h with messages := msgs.drop (msgs.length - h.config.maxMessages.toNat) }
  else
    { h with messages := msgs }

/-- Method `HistoryManager.Add`: append then enforce limits. The `model` argument is
unused by the Go code as well. -/
def HistoryManager.Add (h : HistoryManager) (model : String) (msg : Message) : HistoryManager :=
  enforceLimits { h with messages := h.messages ++ [msg] }

/-- Method `HistoryManager.Set`: replace the content with a copy of `msgs`
(no capacity enforcement). -/
def HistoryManager.Set (h : HistoryManager) (msgs : List Message) : HistoryManager :=
  if msgs.length = 0 then { h with messages := [] }
  else { h with messages := msgs }

/-- Method `HistoryManager.Clear`. -/
def HistoryManager.Clear (h : HistoryManager) : HistoryManager :=
  { h with messages := [] }

/-- Method `HistoryManager.Count`. -/
def HistoryManager.Count (h : HistoryManager) : Nat := h.messages.length

/-- Method `HistoryManager.GetAll` returns a copy of the message slice. -/
def HistoryManager.GetAll (h : HistoryManager) : List Message := h.messages

/-! ### The last-`n` suffix of a list, and its algebra -/

/-- The suffix of the last `n` elements (all of `xs` when it is shorter). -/
def lastN (n : Nat) (xs : List α) : List α := xs.drop (xs.length - n)

/-! ### Behavior of `Add` -/

/-! ## Multimodal input resolver (`internal/parser/parse.go`, `internal/media`) -/

/-- Go `strings.TrimSpace`: strip leading and trailing whitespace. -/
def trimSpace (s : String) : String :=
  ((s.toList.dropWhile Char.isWhitespace).reverse.dropWhile Char.isWhitespace).reverse.asString

/-- Go `strings.ToLower` (character-wise lower-casing; the inputs here are
ASCII file extensions). -/
def strToLower (s : String) : String :=
  (s.toList.map Char.toLower).asString

/-- Go `strings.Join` with a separator. -/
def joinSep (sep : String) : List String → String
  | [] => ""
  | [x] => x
  | x :: xs => x ++ sep ++ joinSep sep xs

/-- The `media.SupportedImageFormats` map from extension to MIME type. -/
def SupportedImageFormats : List (String × String) :=
  [(".jpg", "image/jpeg"), (".jpeg", "image/jpeg"), (".png", "image/png"),
   (".gif", "image/gif"), (".webp", "image/webp"), (".bmp", "image/bmp")]

/-- Map lookup `SupportedImageFormats[ext]` with its `ok` flag as `Option`. -/
def lookupFormat (ext : String) : Option String :=
  (SupportedImageFormats.find? (fun p => p.1 == ext)).map (fun p => p.2)

/-- Function `media.ExtractImagePaths`: keep the whitespace-delimited words
whose (lower-cased) extension is a supported image format. No punctuation
stripping and no filesystem access. -/
def ExtractImagePaths (input : String) : List String :=
  (fields input).filter (fun w => (lookupFormat (strToLower (filepathExt w))).isSome)

/-- The filesystem as the parser observes it: `statIsFile p` is true exactly
when `os.Stat(p)` succeeds and the result is not a directory. -/
structure FsEnv where
  statIsFile : String → Bool

/-- The cutset of trailing punctuation stripped by `parser.isImageFile`
(the Go string literal is a set of characters). -/
def punctCutset : List Char := ['.', ',', '!', '?', ';', ':']

/-- Function `parser.isImageFile`: strip trailing punctuation, require
`os.Stat` to succeed on a non-directory, then test the lower-cased
extension against the supported set. -/
def isImageFile (fs : FsEnv) (path : String) : Bool :=
  let path := trimRightCutset path punctCutset
  if !(fs.statIsFile path) then false
  else
    let ext := strToLower (filepathExt path)
    ext == ".png" || ext == ".jpg" || ext == ".jpeg" || ext == ".webp" ||
      ext == ".gif" || ext == ".bmp"

/-- Image-token classification as the amended specification words it: after
stripping trailing punctuation, the token names an existing non-directory
file and carries a supported image extension. -/
def imageTokenSpec (fs : FsEnv) (tok : String) : Prop :=
  fs.statIsFile (trimRightCutset tok punctCutset) = true
  ∧ strToLower (filepathExt (trimRightCutset tok punctCutset))
      ∈ [".png", ".jpg", ".jpeg", ".webp", ".gif", ".bmp"]

/-- Record `parser.ParsedInput` (zero values as field defaults). -/
structure ParsedInput where
  Mode : String := ""
  Text : String := ""
  ImagePaths : List String := []
  Raw : String := ""
deriving DecidableEq, Repr

/-- Function `parser.ParseLine`: trim, split into tokens, classify each token
with `isImageFile`, rejoin the rest, and substitute the default vision
prompt when only images remain. -/
def ParseLine (fs : FsEnv) (line : String) : ParsedInput :=
  let trimmed := trimSpace line
  if trimmed = "" then { Raw := line }
  else
    let tokens := fields trimmed
    let part := tokens.partition (fun t => isImageFile fs t)
    let imagePaths := part.1
    let textTokens := part.2
    let mode := if imagePaths.length > 0 then "vision" else "chat"
    let text0 := trimSpace (joinSep " " textTokens)
    let text :=
      if text0 = "" ∧ imagePaths.length > 0 then "Describe this image in detail."
      else text0
    { Raw := line, Mode := mode, Text := text, ImagePaths := imagePaths }

/-! ## Image loading (`internal/media`, src/unnamed/part_002) -/

/-- Go `strings.HasPrefix`. -/
def hasPrefixStr (s pre : String) : Bool :=
  pre.toList.isPrefixOf s.toList

/-- Go string slicing `s[n:]` (the sliced amounts here are ASCII). -/
def strDrop (s : String) (n : Nat) : String :=
  (s.toList.drop n).asString

/-- Go `filepath.Join` of two segments. The `Clean` normalization pass that
`Join` applies is the identity on the already-clean segments this program
joins (a home directory and a `~/`-relative remainder). -/
def joinPath (a b : String) : String := a ++ "/" ++ b

/-- The `media.ImageReference` record; `Data` is the raw byte slice,
one `Nat` per byte. -/
structure ImageReference where
  Path : String
  MimeType : String
  Data : List Nat
deriving DecidableEq, Repr

/-- The standard base64 alphabet, as used by `encoding/base64.StdEncoding`. -/
def base64Chars : List Char :=
  "ABCDEFGHIJKLMNOPQRSTUVWXYZabcdefghijklmnopqrstuvwxyz0123456789+/".toList

/-- The base64 digit for a 6-bit value. -/
def base64Char (n : Nat) : Char := base64Chars.getD n 'A'

/-- Standard base64 encoding of a byte sequence, three bytes per group with
`=` padding, as produced by `base64.StdEncoding.EncodeToString`. -/
def base64Groups : List Nat → List Char
  | [] => []
  | [b0] =>
    [base64Char (b0 / 4), base64Char (b0 % 4 * 16), '=', '=']
  | [b0, b1] =>
    [base64Char (b0 / 4), base64Char (b0 % 4 * 16 + b1 / 16),
     base64Char (b1 % 16 * 4), '=']
  | b0 :: b1 :: b2 :: rest =>
    base64Char (b0 / 4) :: base64Char (b0 % 4 * 16 + b1 / 16) ::
      base64Char (b1 % 16 * 4 + b2 / 64) :: base64Char (b2 % 64) :: base64Groups rest

/-- Method `ImageReference.ToBase64`. -/
def ImageReference.ToBase64 (img : ImageReference) : String :=
  (base64Groups img.Data).asString

/-- Method `ImageReference.ToDataURI`. -/
def ImageReference.ToDataURI (img : ImageReference) : String :=
  "data:" ++ img.MimeType ++ ";base64," ++ img.ToBase64

/-- Method `ImageReference.ToMediaPart`. -/
def ImageReference.ToMediaPart (img : ImageReference) : Part :=
  NewMediaPart img.MimeType img.ToDataURI

/-- Function `media.BuildMultimodalMessage`: the text part first, then one
media part per image, in the given order. -/
def BuildMultimodalMessage (text : String) (images : List ImageReference) : Message :=
  NewUserMessage (NewTextPart text :: images.map ImageReference.ToMediaPart)

/-- One HTTP response as `loadImageFromURL` observes it: the status code,
the content-type header, and the outcome of `io.ReadAll` on the body. -/
structure HttpResponse where
  statusCode : Nat
  contentType : String
  body : Except String (List Nat)

/-- The effectful world of `media.LoadImage`: the home directory lookup,
local file reads, and HTTP GETs. -/
structure MediaEnv where
  userHomeDir : Except String String
  readFile : String → Except String (List Nat)
  httpGet : String → Except String HttpResponse

/-- Function `media.loadImageFromFile`: MIME type strictly from the
extension (unsupported extension is an error), then read the file bytes. -/
def loadImageFromFile (env : MediaEnv) (path : String) : Except String ImageReference :=
  let ext := strToLower (filepathExt path)
  match lookupFormat ext with
  | none => .error ("unsupported image format: " ++ ext)
  | some mimeType =>
    match env.readFile path with
    | .error e => .error ("failed to read image file: " ++ e)
    | .ok data => .ok ⟨path, mimeType, data⟩

/-- Function `media.loadImageFromURL`: GET, require status exactly 200, read
the body, then take the MIME type from the content-type header, falling back
to extension lookup and finally to "image/jpeg". -/
def loadImageFromURL (env : MediaEnv) (url : String) : Except String ImageReference :=
  match env.httpGet url with
  | .error e => .error ("failed to download image: " ++ e)
  | .ok resp =>
    if resp.statusCode ≠ 200 then
      .error ("failed to download image: status " ++ toString resp.statusCode)
    else
      match resp.body with
      | .error e => .error ("failed to read image data: " ++ e)
      | .ok data =>
        let mimeType :=
          if resp.contentType = "" then
            match lookupFormat (strToLower (filepathExt url)) with
            | some m => m
            | none => "image/jpeg"
          else resp.contentType
        .ok ⟨url, mimeType, data⟩

/-- Function `media.LoadImage`: expand a leading `~/` via the home
directory, then dispatch on an `http://`/`https://` scheme prefix to the URL
loader, otherwise to the file loader. -/
def LoadImage (env : MediaEnv) (path0 : String) : Except String ImageReference :=
  let expanded : Except String String :=
    if hasPrefixStr path0 "~/" then
      match env.userHomeDir with
      | .error e => .error ("failed to expand home directory: " ++ e)
      | .ok home => .ok (joinPath home (strDrop path0 2))
    else .ok path0
  match expanded with
  | .error e => .error e
  | .ok path =>
    if hasPrefixStr path "http://" || hasPrefixStr path "https://" then
      loadImageFromURL env path
    else
      loadImageFromFile env path

/-! ## Chat flow (`internal/flows`, src/Dockerfile part 2 and
`internal/flows/types.go`) -/

/-- Errors `GenerateText` can return, split the way the caller in `main`
splits them: a context-cancellation error versus any other backend error. -/
inductive GoError where
  | canceled
  | backend (msg : String)
deriving DecidableEq, Repr

/-- Record `flows.ChatRequest`. -/
structure ChatRequest where
  UserInput : String
  Model : String
  SystemPrompt : String
  History : List Message
  ImagePaths : List String
deriving DecidableEq, Repr

/-- Record `flows.ChatResponse`. Durations are milliseconds of a monotonic
clock, hence `Nat`. -/
structure ChatResponse where
  Output : String := ""
  DurationMs : Nat := 0
  TTFCMs : Nat := 0
  Chunks : Nat := 0
  Error : Option GoError := none
  ImagesLoaded : Nat := 0
deriving DecidableEq, Repr

/-- Outcome of the backend call `genkit.GenerateText`. -/
inductive GenOutcome where
  | success (output : String)
  | failure (err : GoError)

/-- The effectful world of one `ChatFlow.generate` call: the media
environment for image loading, the clock readings (call entry, each chunk
arrival, call return), and the backend outcome. Chunk arrivals are listed in
delivery order. -/
structure GenEnv where
  media : MediaEnv
  startTime : Nat
  chunkTimes : List Nat
  endTime : Nat
  outcome : GenOutcome

/-- The image-loading loop of `ChatFlow.generate`: failed loads are logged
and skipped (`continue`), successful loads are appended in request order. -/
def loadImages (menv : MediaEnv) (paths : List String) : List ImageReference :=
  paths.filterMap (fun p => (LoadImage menv p).toOption)

/-- The current-turn message assembly of `ChatFlow.generate` (lines 113-139
of the flow source) together with the `ImagesLoaded` count it sets. -/
def currentTurn (menv : MediaEnv) (req : ChatRequest) : Message × Nat :=
  if req.ImagePaths.length > 0 then
    let images := loadImages menv req.ImagePaths
    if images.length > 0 then
      (BuildMultimodalMessage req.UserInput images, images.length)
    else
      (NewUserTextMessage req.UserInput, 0)
  else
    (NewUserTextMessage req.UserInput, 0)

/-- The full message list handed to the backend: prior history then the
current user turn. -/
def sentMessages (menv : MediaEnv) (req : ChatRequest) : List Message :=
  req.History ++ [(currentTurn menv req).1]

/-- The streaming wrapper around the caller's callback: on each chunk, latch
the first-chunk time when the counter is zero, then increment the counter. -/
def streamStep (s : Nat × Option Nat) (t : Nat) : Nat × Option Nat :=
  (s.1 + 1, if s.1 = 0 then some t else s.2)

/-- Folding the streaming wrapper over the chunk arrivals yields the final
`(chunkCount, firstChunkTime)` pair; `none` models the zero `time.Time`. -/
def streamFold (times : List Nat) : Nat × Option Nat :=
  times.foldl streamStep (0, none)

/-- Method `ChatFlow.generate`: assemble messages, run the backend call,
then populate the response metrics from the clock and counters regardless
of the outcome. `hasCallback` distinguishes `RunWithStreaming` (a streaming
handler is registered, the wrapper sees every chunk) from `execute` with a
nil callback (no handler, so no chunk ever reaches the wrapper). -/
def generate (env : GenEnv) (req : ChatRequest) (hasCallback : Bool) :
    ChatResponse × Option GoError :=
  let assembled := currentTurn env.media req
  let counters := if hasCallback then streamFold env.chunkTimes else (0, none)
  let durationMs := env.endTime - env.startTime
  let ttfc := match counters.2 with
    | some t => t - env.startTime
    | none => 0
  let response : ChatResponse :=
    { DurationMs := durationMs, Chunks := counters.1, TTFCMs := ttfc,
      ImagesLoaded := assembled.2 }
  match env.outcome with
  | .failure e => ({ response with Error := some e }, some e)
  | .success out => ({ response with Output := out }, none)

/-! ## Cancellation coordinator (src/unnamed/part_000, lines 192-212 and
280-291)

Both the signal-handler goroutine and the main loop touch the shared
`genCancel` register only under the mutex `mu`, so every access is atomic
and a run of the program is an interleaving of three atomic events: the main
loop arming a fresh cancel function before a generation, the main loop
clearing it in `cleanup` after the generation returns (on success, backend
error, and user cancellation alike), and the signal goroutine handling one
interrupt. Turn `i`'s cancel function is identified by the number `i`. -/

inductive CoordEvent where
  | arm (id : Nat)
  | cleanup
  | interrupt
deriving DecidableEq, Repr

/-- The mutex-guarded state: the `genCancel` register (`none` is Go `nil`)
plus, as history variable, the list of turn ids whose cancel function an
interrupt has invoked. -/
structure CoordState where
  genCancel : Option Nat
  cancelled : List Nat
deriving DecidableEq, Repr

/-- One atomic event. `arm id` is `genCancel = cancel` under `mu`;
`cleanup` is `cancel(); genCancel = nil` under `mu` (cancelling one's own
context after the call returned releases resources and affects no other
turn); `interrupt` is the signal handler body: call `genCancel()` only when
the register is non-nil, else do nothing. -/
def coordStep (s : CoordState) (e : CoordEvent) : CoordState :=
  match e with
  | .arm id => { s with genCancel := some id }
  | .cleanup => { s with genCancel := none }
  | .interrupt =>
    match s.genCancel with
    | some id => { s with cancelled := s.cancelled ++ [id] }
    | none => s

/-- Run a trace from the initial state (`genCancel` nil, nothing
cancelled). -/
def runTrace (t : List CoordEvent) : CoordState :=
  t.foldl coordStep ⟨none, []⟩

/-- The main loop's protocol, with interrupts interleaved arbitrarily: turn
`n` is armed only when no turn is in flight, `cleanup` follows while turn
`n - 1` is in flight, and turn ids increase by one starting from `n`. -/
def mainSeqB : Nat → Bool → List CoordEvent → Bool
  | _, _, [] => true
  | n, b, .interrupt :: t => mainSeqB n b t
  | n, false, .arm m :: t => m == n && mainSeqB (n + 1) true t
  | n, true, .cleanup :: t => mainSeqB n false t
  | _, _, _ => false

/-- The number of generations armed in a trace. -/
def numArms : List CoordEvent → Nat
  | [] => 0
  | .arm _ :: t => numArms t + 1
  | _ :: t => numArms t

/-- Whether a generation is in flight after the trace, starting from `b`. -/
def inFlightAfter (b : Bool) : List CoordEvent → Bool
  | [] => b
  | .arm _ :: t => inFlightAfter true t
  | .cleanup :: t => inFlightAfter false t
  | .interrupt :: t => inFlightAfter b t

/-! ## Snapshot persistence (`internal/db/db.go`, `Store.SaveHistory`)

The `chat_history` table is a list of `(role, content)` rows. `SaveHistory`
works inside one SQL transaction with `defer tx.Rollback()`: every early
return discards the staged changes (rollback), and only `tx.Commit()`
publishes them; after a commit the deferred rollback is a no-op. The
environment records which steps succeed. -/

abbrev HistoryRow := String × String

/-- The fallible steps of `SaveHistory`: starting the transaction, the
`DELETE`, preparing the insert statement, `json.Marshal` of a message's
content, executing one insert, and the commit. -/
structure DbEnv where
  beginOk : Bool
  deleteOk : Bool
  prepareOk : Bool
  marshalContent : List Part → Except String String
  insertOk : String → String → Bool
  commitOk : Bool

/-- The insert loop of `SaveHistory`: marshal each message's content and
stage one `(role, content)` row per message, stopping at the first
failure. -/
def saveHistoryLoop (env : DbEnv) (staged : List HistoryRow) :
    List Message → Except String (List HistoryRow)
  | [] => .ok staged
  | m :: ms =>
    match env.marshalContent m.content with
    | .error e => .error e
    | .ok b =>
      if env.insertOk m.role b then saveHistoryLoop env (staged ++ [(m.role, b)]) ms
      else .error "insert failed"

/-- Method `Store.SaveHistory`: begin a transaction, wipe the snapshot,
prepare the insert, insert one row per message, commit. Any failure rolls
the table back to its prior content. -/
def SaveHistory (env : DbEnv) (table : List HistoryRow) (messages : List Message) :
    List HistoryRow × Option String :=
  if !env.beginOk then (table, some "begin failed")
  else if !env.deleteOk then (table, some "delete failed")
  else if !env.prepareOk then (table, some "prepare failed")
  else
    match saveHistoryLoop env [] messages with
    | .error e => (table, some e)
    | .ok staged => if env.commitOk then (staged, none) else (table, some "commit failed")

/-- The row `SaveHistory` writes for a message (meaningful when its marshal
succeeded). -/
def rowOf (env : DbEnv) (m : Message) : HistoryRow :=
  (m.role, match env.marshalContent m.content with | .ok b => b | .error _ => "")

/-! ## Concrete environments used to evaluate the theorems -/

/-- A media environment with no home directory, no files and no network. -/
def offlineEnv : MediaEnv :=
  ⟨.error "no home", fun _ => .error "enoent", fun _ => .error "offline"⟩

/-- A media environment whose server answers every GET with status 204 (a
2xx-class status) and a PNG body. -/
def status204Env : MediaEnv :=
  ⟨.error "no home", fun _ => .error "enoent",
   fun _ => .ok ⟨204, "image/png", .ok [1, 2, 3]⟩⟩

/-- A media environment whose server answers every GET with status 200, an
empty content-type header and a one-byte body. -/
def okHttpEnv : MediaEnv :=
  ⟨.error "no home", fun _ => .error "enoent",
   fun _ => .ok ⟨200, "", .ok [7]⟩⟩

/-- A generation environment: entry at 0, chunks at 10 and 40, return at
50, backend reports user cancellation. -/
def cancelledGenEnv : GenEnv :=
  ⟨offlineEnv, 0, [10, 40], 50, .failure .canceled⟩

/-- A text-only request against an empty history. -/
def plainReq : ChatRequest :=
  ⟨"hello", "llama3", "You are a helpful assistant", [], []⟩

/-- A single-image request whose image has an unsupported extension. -/
def tiffReq : ChatRequest :=
  ⟨"hi", "llama3", "You are a helpful assistant", [], ["photo.tiff"]⟩

/-- A database environment in which every step succeeds and marshalling
yields the JSON of a single text part. -/
def allOkDb : DbEnv :=
  ⟨true, true, true, fun _ => .ok "[\x7b\x22text\x22:\x22hi\x22\x7d]", fun _ _ => true, true⟩

/-! ## Theorems -/

theorem lastN_of_le {n : Nat} {xs : List α} (h : xs.length ≤ n) : lastN n xs = xs := by
  unfold lastN
  rw [Nat.sub_eq_zero_of_le h, List.drop_zero]

theorem length_lastN (n : Nat) (xs : List α) :
    (lastN n xs).length = xs.length - (xs.length - n) := by
  unfold lastN
  rw [List.length_drop]

theorem length_lastN_le (n : Nat) (xs : List α) : (lastN n xs).length ≤ n := by
  rw [length_lastN]
  omega

theorem lastN_append_absorb (n : Nat) (xs ys : List α) :
    lastN n (lastN n xs ++ ys) = lastN n (xs ++ ys) := by
  by_cases h : xs.length ≤ n
  · rw [lastN_of_le h]
  · unfold lastN
    rw [List.length_append, List.length_append, List.length_drop]
    have h1 : xs.length - (xs.length - n) + ys.length - n = ys.length := by omega
    have h2 : xs.length + ys.length - n = (xs.length - n) + ys.length := by omega
    rw [h1, h2, ← List.drop_drop]
    congr 1
    have h3 : xs.length - n ≤ xs.length := Nat.sub_le _ _
    exact (List.drop_append_of_le_length h3).symm

theorem Add_eq (c : Int) (s : List Message) (hc : 0 < c) (hs : s.length ≤ c.toNat)
    (mdl : String) (m : Message) :
    HistoryManager.Add ⟨⟨c⟩, s⟩ mdl m = ⟨⟨c⟩, lastN c.toNat (s ++ [m])⟩ := by
  have hcz : (c.toNat : Int) = c := Int.toNat_of_nonneg (le_of_lt hc)
  unfold HistoryManager.Add enforceLimits
  by_cases h : s.length + 1 ≤ c.toNat
  · have hcond : ¬(0 < c ∧ c < (((s ++ [m]).length : Nat) : Int)) := by
      rw [List.length_append]
      simp only [List.length_cons, List.length_nil]
      omega
    simp only [hcond, if_false]
    rw [lastN_of_le (by rw [List.length_append]; simpa using h)]
  · have hcond : (0 < c ∧ c < (((s ++ [m]).length : Nat) : Int)) := by
      rw [List.length_append]
      simp only [List.length_cons, List.length_nil]
      omega
    simp only [hcond, if_true]
    rfl

theorem foldl_Add (c : Int) (hc : 0 < c) (mdl : String) (adds : List Message) :
    ∀ s : List Message, s.length ≤ c.toNat →
      (adds.foldl (fun h m => HistoryManager.Add h mdl m) ⟨⟨c⟩, s⟩).messages
        = lastN c.toNat (s ++ adds) := by
  induction adds with
  | nil =>
    intro s hs
    simp only [List.foldl_nil, List.append_nil]
    exact (lastN_of_le hs).symm
  | cons a adds ih =>
    intro s hs
    rw [List.foldl_cons, Add_eq c s hc hs mdl a,
        ih (lastN c.toNat (s ++ [a])) (length_lastN_le _ _),
        lastN_append_absorb, List.append_assoc]
    rfl

/-- C2: for every positive configured capacity `c` and every sequence of
`Add` calls starting from a freshly constructed manager, after the calls the
stored message count is at most `c` and the stored messages are exactly the
most recently added `c` messages, in insertion order (FIFO eviction from the
head). Applying the theorem to every prefix of the sequence gives the bound
after each individual `Add`. -/
theorem c2_history_fifo_window (c : Int) (hc : 0 < c) (mdl : String) (adds : List Message) :
    ((adds.foldl (fun h m => HistoryManager.Add h mdl m)
        (NewHistoryManager [WithMaxMessages c])).Count ≤ c.toNat)
    ∧ (adds.foldl (fun h m => HistoryManager.Add h mdl m)
        (NewHistoryManager [WithMaxMessages c])).messages = lastN c.toNat adds := by
  have hctor : NewHistoryManager [WithMaxMessages c] = ⟨⟨c⟩, ([] : List Message)⟩ := by
    unfold NewHistoryManager WithMaxMessages
    simp only [List.foldl_cons, List.foldl_nil]
    have : ¬ c < 0 := by omega
    simp [this]
  have hmain := foldl_Add c hc mdl adds [] (by simp)
  rw [hctor]
  constructor
  · unfold HistoryManager.Count
    rw [hmain]
    simpa using length_lastN_le c.toNat adds
  · rw [hmain]
    simp

/-- Witness for C2 at capacity 2 and three added messages: the first message
is evicted, the last two are retained in order. -/
theorem c2_history_fifo_window_witness :
    (([NewUserTextMessage "a", NewModelTextMessage "b", NewUserTextMessage "c"].foldl
        (fun h m => HistoryManager.Add h "llama3" m)
        (NewHistoryManager [WithMaxMessages 2])).Count ≤ (2 : Int).toNat)
    ∧ ([NewUserTextMessage "a", NewModelTextMessage "b", NewUserTextMessage "c"].foldl
        (fun h m => HistoryManager.Add h "llama3" m)
        (NewHistoryManager [WithMaxMessages 2])).messages
      = lastN (2 : Int).toNat
          [NewUserTextMessage "a", NewModelTextMessage "b", NewUserTextMessage "c"] :=
  c2_history_fifo_window 2 (by decide) "llama3"
    [NewUserTextMessage "a", NewModelTextMessage "b", NewUserTextMessage "c"]

/-- C3 counterexample: loading a six-message snapshot into a manager whose
capacity is 5 (the configuration `main` uses) leaves all six messages in
place, so the claimed capacity bound fails immediately after `Set`. -/
theorem c3_set_counterexample :
    ((NewHistoryManager [WithMaxMessages 5]).Set
        [NewUserTextMessage "1", NewModelTextMessage "2", NewUserTextMessage "3",
         NewModelTextMessage "4", NewUserTextMessage "5", NewModelTextMessage "6"]).Count = 6
    ∧ ((NewHistoryManager [WithMaxMessages 5]).Set
        [NewUserTextMessage "1", NewModelTextMessage "2", NewUserTextMessage "3",
         NewModelTextMessage "4", NewUserTextMessage "5", NewModelTextMessage "6"]).config.maxMessages = 5
    ∧ ¬ (((NewHistoryManager [WithMaxMessages 5]).Set
        [NewUserTextMessage "1", NewModelTextMessage "2", NewUserTextMessage "3",
         NewModelTextMessage "4", NewUserTextMessage "5", NewModelTextMessage "6"]).Count ≤ 5) := by
  decide

/-- C3 amended: `Set` replaces the stored messages with exactly the given
list — no truncation to capacity is applied, so a snapshot longer than the
capacity violates the bound until the next `Add` re-enforces it. The
configuration is left unchanged. -/
theorem c3_set_replaces_verbatim (h : HistoryManager) (msgs : List Message) :
    (h.Set msgs).messages = msgs ∧ (h.Set msgs).config = h.config := by
  unfold HistoryManager.Set
  by_cases hlen : msgs.length = 0
  · rw [List.length_eq_zero] at hlen
    subst hlen
    simp
  · simp [hlen]

/-- C8 counterexample: constructing a manager with capacity 0 keeps
capacity 0 (it is not normalized to the default 5), the capacity is not
positive, and a single `Add` immediately exceeds it. -/
theorem c8_zero_capacity_counterexample :
    (NewHistoryManager [WithMaxMessages 0]).config.maxMessages = 0
    ∧ ¬ (0 < (NewHistoryManager [WithMaxMessages 0]).config.maxMessages)
    ∧ (NewHistoryManager [WithMaxMessages 0]).config.maxMessages
        < (((NewHistoryManager [WithMaxMessages 0]).Add "m" (NewUserTextMessage "x")).Count : Int) := by
  decide

/-- C8 amended: only a negative configured capacity is normalized to the
default 5 at construction; zero is retained as-is (and disables eviction).
Hence every constructed manager has a non-negative capacity, and the
`len ≤ capacity` bound after `Add` holds whenever the capacity is positive
(the latter is `c2_history_fifo_window`). -/
theorem c8_constructor_normalization (n : Int) (opts : List HistoryOption) :
    (NewHistoryManager [WithMaxMessages n]).config.maxMessages = (if n < 0 then 5 else n)
    ∧ 0 ≤ (NewHistoryManager opts).config.maxMessages
    ∧ (NewHistoryManager [WithMaxMessages n]).messages = [] := by
  refine ⟨?_, ?_, ?_⟩
  · unfold NewHistoryManager WithMaxMessages
    simp only [List.foldl_cons, List.foldl_nil]
    by_cases hn : n < 0 <;> simp [hn]
  · unfold NewHistoryManager
    generalize (opts.foldl (fun c f => f c) (⟨5⟩ : HistoryConfig)) = cfg
    by_cases hc : cfg.maxMessages < 0
    · simp [hc]
    · simp [hc]
      omega
  · unfold NewHistoryManager WithMaxMessages
    by_cases hn : n < 0 <;> simp [hn]

/-- Witness for C8's amended statement at `n = 0` and an empty option list. -/
theorem c8_constructor_normalization_witness :
    (NewHistoryManager [WithMaxMessages 0]).config.maxMessages = (if (0 : Int) < 0 then 5 else 0)
    ∧ 0 ≤ (NewHistoryManager []).config.maxMessages
    ∧ (NewHistoryManager [WithMaxMessages 0]).messages = [] :=
  c8_constructor_normalization 0 []

/-- C5 counterexample: classification does consult the filesystem. On a
filesystem where `./diagram.png` does not exist, the resolver classifies no
token of "describe ./diagram.png please" as an image reference and leaves
the text uncleaned, contradicting the claim that classification requires
only the extension test. -/
theorem c5_parse_counterexample :
    (ParseLine ⟨fun _ => false⟩ "describe ./diagram.png please").ImagePaths = []
    ∧ (ParseLine ⟨fun _ => false⟩ "describe ./diagram.png please").Text
        = "describe ./diagram.png please"
    ∧ (ParseLine ⟨fun _ => false⟩ "describe ./diagram.png please").Mode = "chat" := by
  decide

/-- C5 amended: a token is classified as an image reference exactly when,
after stripping trailing punctuation, it names an existing non-directory
file whose extension is in the supported set; non-image tokens are rejoined
single-space separated; and an empty cleaned text with at least one image
reference becomes the fixed default prompt. -/
theorem c5_resolver_amended (fs : FsEnv) (line : String) (h : trimSpace line ≠ "") :
    ((ParseLine fs line).ImagePaths
        = (fields (trimSpace line)).filter (fun t => isImageFile fs t))
    ∧ (∀ t : String, isImageFile fs t = true ↔ imageTokenSpec fs t)
    ∧ ((ParseLine fs line).Text =
        if trimSpace (joinSep " "
              ((fields (trimSpace line)).filter (fun t => !(isImageFile fs t)))) = ""
            ∧ (fields (trimSpace line)).filter (fun t => isImageFile fs t) ≠ [] then
          "Describe this image in detail."
        else trimSpace (joinSep " "
              ((fields (trimSpace line)).filter (fun t => !(isImageFile fs t))))) := by
  refine ⟨?_, ?_, ?_⟩
  · unfold ParseLine
    simp only [h, if_false, List.partition_eq_filter_filter]
  · intro t
    unfold isImageFile imageTokenSpec
    cases hstat : fs.statIsFile (trimRightCutset t punctCutset) <;>
      simp [hstat, List.mem_cons] <;> tauto
  · unfold ParseLine
    simp only [h, if_false, List.partition_eq_filter_filter]
    have hfun : (not ∘ fun t => isImageFile fs t) = (fun t => !(isImageFile fs t)) := rfl
    rw [hfun]
    by_cases hpaths : ((fields (trimSpace line)).filter (fun t => isImageFile fs t)) = []
    · simp [hpaths]
    · have hlen : 0 < ((fields (trimSpace line)).filter (fun t => isImageFile fs t)).length :=
        List.length_pos.mpr hpaths
      simp [hpaths, hlen]

/-- Witness for C5's amended statement: on a filesystem where exactly
`./diagram.png` exists, the example line resolves to image list
`["./diagram.png"]` and cleaned text "describe please". -/
theorem c5_resolver_amended_witness :
    ((ParseLine ⟨fun p => p == "./diagram.png"⟩ "describe ./diagram.png please").ImagePaths
        = (fields (trimSpace "describe ./diagram.png please")).filter
            (fun t => isImageFile ⟨fun p => p == "./diagram.png"⟩ t))
    ∧ (ParseLine ⟨fun p => p == "./diagram.png"⟩ "describe ./diagram.png please").ImagePaths
        = ["./diagram.png"]
    ∧ (ParseLine ⟨fun p => p == "./diagram.png"⟩ "describe ./diagram.png please").Text
        = "describe please" :=
  ⟨(c5_resolver_amended ⟨fun p => p == "./diagram.png"⟩ "describe ./diagram.png please"
      (by decide)).1,
   by decide, by decide⟩

/-! ### Cancellation coordinator invariant -/

theorem coord_inv (t : List CoordEvent) :
    ∀ (n : Nat) (b : Bool) (s : CoordState),
      mainSeqB n b t = true →
      (b = true → 1 ≤ n ∧ s.genCancel = some (n - 1)) →
      (b = false → s.genCancel = none) →
      (∀ i ∈ s.cancelled, i < n) →
      (∀ i ∈ (t.foldl coordStep s).cancelled, i < n + numArms t)
      ∧ (inFlightAfter b t = true →
          (t.foldl coordStep s).genCancel = some (n + numArms t - 1))
      ∧ (inFlightAfter b t = false → (t.foldl coordStep s).genCancel = none) := by
  induction t with
  | nil =>
    intro n b s _ hb1 hb0 hc
    simp only [List.foldl_nil, numArms, inFlightAfter, Nat.add_zero]
    refine ⟨hc, ?_, ?_⟩
    · intro hb
      exact (hb1 hb).2
    · intro hb
      exact hb0 hb
  | cons e t ih =>
    intro n b s h hb1 hb0 hc
    cases e with
    | interrupt =>
      simp only [mainSeqB] at h
      simp only [List.foldl_cons, numArms, inFlightAfter]
      cases b with
      | false =>
        have hnone : s.genCancel = none := hb0 rfl
        have hid : coordStep s CoordEvent.interrupt = s := by
          simp [coordStep, hnone]
        rw [hid]
        exact ih n false s h hb1 hb0 hc
      | true =>
        obtain ⟨hn1, hsome⟩ := hb1 rfl
        have hstep : coordStep s CoordEvent.interrupt
            = { s with cancelled := s.cancelled ++ [n - 1] } := by
          simp [coordStep, hsome]
        rw [hstep]
        refine ih n true _ h (fun _ => ⟨hn1, hsome⟩) (by intro hf; cases hf) ?_
        intro i hi
        rcases List.mem_append.mp hi with hi | hi
        · exact hc i hi
        · simp only [List.mem_singleton] at hi
          omega
    | arm m =>
      cases b with
      | true => simp [mainSeqB] at h
      | false =>
        simp only [mainSeqB, Bool.and_eq_true, beq_iff_eq] at h
        obtain ⟨hm, ht⟩ := h
        subst hm
        simp only [List.foldl_cons, numArms, inFlightAfter]
        have harith : m + (numArms t + 1) = (m + 1) + numArms t := by omega
        rw [harith]
        refine ih (m + 1) true { s with genCancel := some m } ht
          (fun _ => ⟨by omega, by simp [coordStep]⟩) (by intro hf; cases hf) ?_
        intro i hi
        exact Nat.lt_succ_of_lt (hc i hi)
    | cleanup =>
      cases b with
      | false => simp [mainSeqB] at h
      | true =>
        simp only [mainSeqB] at h
        simp only [List.foldl_cons, numArms, inFlightAfter]
        refine ih n false { s with genCancel := none } h
          (by intro hf; cases hf) (fun _ => by simp [coordStep]) ?_
        intro i hi
        exact hc i hi

theorem mainSeqB_initialSegment (t₁ : List CoordEvent) :
    ∀ (t₂ : List CoordEvent) (n : Nat) (b : Bool),
      mainSeqB n b (t₁ ++ t₂) = true → mainSeqB n b t₁ = true := by
  induction t₁ with
  | nil =>
    intro t₂ n b _
    cases b <;> rfl
  | cons e t ih =>
    intro t₂ n b h
    cases e with
    | interrupt =>
      simp only [List.cons_append, mainSeqB] at h ⊢
      exact ih t₂ n b h
    | arm m =>
      cases b with
      | true => simp [mainSeqB] at h
      | false =>
        simp only [List.cons_append, mainSeqB, Bool.and_eq_true] at h ⊢
        exact ⟨h.1, ih t₂ (n + 1) true h.2⟩
    | cleanup =>
      cases b with
      | false => simp [mainSeqB] at h
      | true =>
        simp only [List.cons_append, mainSeqB] at h ⊢
        exact ih t₂ n false h

/-- C1: along every interleaving of the main loop's protocol with
asynchronous interrupts, (1) every turn an interrupt ever cancels was
already armed by then — at any prefix of the run, the cancelled ids are
among the turns armed within that prefix, so an interrupt can never cancel
a later, unrelated turn; (2) whenever no generation is in flight the
`genCancel` register is nil (the handle is cleared after every outcome),
and while one is in flight it holds exactly the current turn's fresh
handle; (3) an interrupt arriving while the register is nil changes
nothing — a harmless no-op. -/
theorem c1_single_flight_cancellation (t : List CoordEvent)
    (h : mainSeqB 0 false t = true) :
    (∀ t₁ t₂, t = t₁ ++ t₂ → ∀ i ∈ (runTrace t₁).cancelled, i < numArms t₁)
    ∧ (inFlightAfter false t = false → (runTrace t).genCancel = none)
    ∧ (inFlightAfter false t = true → (runTrace t).genCancel = some (numArms t - 1))
    ∧ (∀ s : CoordState, s.genCancel = none → coordStep s CoordEvent.interrupt = s) := by
  have base : ∀ u : List CoordEvent, mainSeqB 0 false u = true →
      (∀ i ∈ (runTrace u).cancelled, i < numArms u)
      ∧ (inFlightAfter false u = true → (runTrace u).genCancel = some (numArms u - 1))
      ∧ (inFlightAfter false u = false → (runTrace u).genCancel = none) := by
    intro u hu
    have := coord_inv u 0 false ⟨none, []⟩ hu
      (by intro hf; cases hf) (fun _ => rfl) (by intro i hi; cases hi)
    simpa [runTrace] using this
  refine ⟨?_, (base t h).2.2, (base t h).2.1, ?_⟩
  · intro t₁ t₂ ht
    subst ht
    exact (base t₁ (mainSeqB_initialSegment t₁ t₂ 0 false h)).1
  · intro s hs
    simp [coordStep, hs]

/-- Witness for C1 on the trace: interrupt while idle, arm turn 0,
interrupt (cancels 0), cleanup, interrupt while idle, arm turn 1, cleanup,
interrupt while idle. Turn 0 is the only turn cancelled and the register
ends nil. -/
theorem c1_single_flight_cancellation_witness :
    (0 : Nat) < numArms
        [CoordEvent.interrupt, CoordEvent.arm 0, CoordEvent.interrupt,
         CoordEvent.cleanup, CoordEvent.interrupt, CoordEvent.arm 1,
         CoordEvent.cleanup, CoordEvent.interrupt]
    ∧ (runTrace
        [CoordEvent.interrupt, CoordEvent.arm 0, CoordEvent.interrupt,
         CoordEvent.cleanup, CoordEvent.interrupt, CoordEvent.arm 1,
         CoordEvent.cleanup, CoordEvent.interrupt]).genCancel = none :=
  ⟨(c1_single_flight_cancellation
      [CoordEvent.interrupt, CoordEvent.arm 0, CoordEvent.interrupt,
       CoordEvent.cleanup, CoordEvent.interrupt, CoordEvent.arm 1,
       CoordEvent.cleanup, CoordEvent.interrupt] (by decide)).1
      [CoordEvent.interrupt, CoordEvent.arm 0, CoordEvent.interrupt]
      [CoordEvent.cleanup, CoordEvent.interrupt, CoordEvent.arm 1,
       CoordEvent.cleanup, CoordEvent.interrupt] (by decide) 0 (by decide)
      |>.trans_le (by decide),
   (c1_single_flight_cancellation
      [CoordEvent.interrupt, CoordEvent.arm 0, CoordEvent.interrupt,
       CoordEvent.cleanup, CoordEvent.interrupt, CoordEvent.arm 1,
       CoordEvent.cleanup, CoordEvent.interrupt] (by decide)).2.1 (by decide)⟩

/-! ### Streaming metrics -/

theorem streamFold_go (ts : List Nat) :
    ∀ (c : Nat) (f : Option Nat), c ≠ 0 → ts.foldl streamStep (c, f) = (c + ts.length, f) := by
  induction ts with
  | nil =>
    intro c f _
    simp
  | cons t ts ih =>
    intro c f hc
    simp only [List.foldl_cons, streamStep, if_neg hc]
    rw [ih (c + 1) f (by omega)]
    simp only [Prod.mk.injEq, List.length_cons]
    exact ⟨by omega, by trivial⟩

theorem streamFold_spec (ts : List Nat) : streamFold ts = (ts.length, ts.head?) := by
  cases ts with
  | nil => rfl
  | cons t ts =>
    unfold streamFold
    have h1 : List.foldl streamStep ((0 : Nat), (none : Option Nat)) (t :: ts)
        = List.foldl streamStep (1, some t) ts := rfl
    rw [h1, streamFold_go ts 1 (some t) one_ne_zero]
    simp only [Prod.mk.injEq, List.length_cons, List.head?_cons]
    exact ⟨by omega, by trivial⟩

/-- C4: for every outcome of the backend call (success, backend error, or
cancellation — `env.outcome` is arbitrary), the response `generate` returns
carries the accumulated metrics: `Chunks` equals the number of invocations
of the streaming wrapper (one per delivered chunk), `TTFCMs` is 0 when no
chunk ever arrived, `TTFCMs ≤ DurationMs` whenever `Chunks > 0`, the
duration spans entry to return, and the error field reports exactly the
backend failure. -/
theorem c4_metrics_all_outcomes (env : GenEnv) (req : ChatRequest)
    (hrange : ∀ t ∈ env.chunkTimes, env.startTime ≤ t ∧ t ≤ env.endTime) :
    ((generate env req true).1.Chunks = env.chunkTimes.length)
    ∧ (env.chunkTimes = [] → (generate env req true).1.TTFCMs = 0)
    ∧ (0 < (generate env req true).1.Chunks →
        (generate env req true).1.TTFCMs ≤ (generate env req true).1.DurationMs)
    ∧ ((generate env req true).1.DurationMs = env.endTime - env.startTime)
    ∧ ((generate env req true).1.Error
        = match env.outcome with | .success _ => none | .failure e => some e) := by
  have hresp : ∀ g : ChatResponse × Option GoError, g = generate env req true →
      g.1.Chunks = env.chunkTimes.length
      ∧ g.1.TTFCMs = (match env.chunkTimes.head? with
          | some t => t - env.startTime
          | none => 0)
      ∧ g.1.DurationMs = env.endTime - env.startTime
      ∧ g.1.Error = (match env.outcome with | .success _ => none | .failure e => some e) := by
    intro g hg
    subst hg
    unfold generate
    rw [if_pos rfl, streamFold_spec]
    cases env.outcome <;> simp
  obtain ⟨hchunks, httfc, hdur, herr⟩ := hresp (generate env req true) rfl
  refine ⟨hchunks, ?_, ?_, hdur, herr⟩
  · intro hnil
    rw [httfc, hnil]
    rfl
  · intro hpos
    rw [hchunks] at hpos
    have hne : env.chunkTimes ≠ [] := by
      intro hnil
      rw [hnil] at hpos
      exact absurd hpos (by simp)
    have hh := List.head?_eq_head hne
    have hmem : env.chunkTimes.head hne ∈ env.chunkTimes :=
      List.mem_of_mem_head? (Option.mem_def.mpr hh)
    obtain ⟨h1, h2⟩ := hrange _ hmem
    rw [httfc, hdur, hh]
    dsimp only
    omega

/-- Witness for C4: with chunks at 10 and 40 in [0, 50] and a cancelled
outcome, the response still reports 2 chunks, TTFC 10 and duration 50. -/
theorem c4_metrics_all_outcomes_witness :
    ((generate cancelledGenEnv plainReq true).1.Chunks = 2)
    ∧ ((generate cancelledGenEnv plainReq true).1.TTFCMs
        ≤ (generate cancelledGenEnv plainReq true).1.DurationMs) :=
  ⟨((c4_metrics_all_outcomes cancelledGenEnv plainReq (by decide)).1).trans (by decide),
   (c4_metrics_all_outcomes cancelledGenEnv plainReq (by decide)).2.2.1 (by decide)⟩

/-! ### Message assembly -/

/-- C6: the message list handed to the backend is the history snapshot
verbatim (same order, nothing dropped or deduplicated) followed by exactly
one current-turn message; when at least one image loaded, that message is a
user message whose first part is the text and whose remaining parts are one
media part per loaded image in request order; when none loaded, it is the
plain text-only user message. -/
theorem c6_backend_message_list (menv : MediaEnv) (req : ChatRequest) :
    (sentMessages menv req = req.History ++ [(currentTurn menv req).1])
    ∧ ((sentMessages menv req).take req.History.length = req.History)
    ∧ ((sentMessages menv req).length = req.History.length + 1)
    ∧ (0 < (loadImages menv req.ImagePaths).length →
        (currentTurn menv req).1
          = ⟨"user", Part.text req.UserInput
              :: (loadImages menv req.ImagePaths).map ImageReference.ToMediaPart⟩)
    ∧ ((loadImages menv req.ImagePaths).length = 0 →
        (currentTurn menv req).1 = NewUserTextMessage req.UserInput) := by
  refine ⟨rfl, ?_, ?_, ?_, ?_⟩
  · unfold sentMessages
    exact List.take_left _ _
  · unfold sentMessages
    simp
  · intro hpos
    have hpaths : 0 < req.ImagePaths.length := by
      have hle := List.length_filterMap_le (fun p => (LoadImage menv p).toOption) req.ImagePaths
      unfold loadImages at hpos
      omega
    unfold currentTurn
    rw [if_pos hpaths, if_pos hpos]
    rfl
  · intro hzero
    unfold currentTurn
    by_cases hpaths : 0 < req.ImagePaths.length
    · rw [if_pos hpaths, if_neg (by omega)]
    · rw [if_neg hpaths]

/-- Witness for C6: a two-message history and one remote image that loads
with status 200; the backend sees the history then one user message with
the text part first and a single media part. -/
theorem c6_backend_message_list_witness :
    (currentTurn okHttpEnv
        ⟨"look", "llama3", "sys", [NewUserTextMessage "a", NewModelTextMessage "b"],
         ["http://h/i.png"]⟩).1
      = ⟨"user", Part.text "look"
          :: (loadImages okHttpEnv ["http://h/i.png"]).map ImageReference.ToMediaPart⟩
    ∧ sentMessages okHttpEnv
        ⟨"look", "llama3", "sys", [NewUserTextMessage "a", NewModelTextMessage "b"],
         ["http://h/i.png"]⟩
      = [NewUserTextMessage "a", NewModelTextMessage "b"]
        ++ [(currentTurn okHttpEnv
              ⟨"look", "llama3", "sys", [NewUserTextMessage "a", NewModelTextMessage "b"],
               ["http://h/i.png"]⟩).1] :=
  ⟨(c6_backend_message_list okHttpEnv
      ⟨"look", "llama3", "sys", [NewUserTextMessage "a", NewModelTextMessage "b"],
       ["http://h/i.png"]⟩).2.2.2.1 (by decide),
   (c6_backend_message_list okHttpEnv
      ⟨"look", "llama3", "sys", [NewUserTextMessage "a", NewModelTextMessage "b"],
       ["http://h/i.png"]⟩).1⟩

/-! ### Local image loading -/

/-- C9: for a local image path, `LoadImage` expands a leading `~/` through
the home directory, derives the MIME type strictly from the file extension
— an unsupported extension is an error, with no silent default — and the
generation loop skips a failed image instead of failing the turn: when the
only image reference fails to load, the assembled message is text-only and
`ImagesLoaded` is 0. -/
theorem c9_local_image_loading (env : MediaEnv) :
    (∀ path home, hasPrefixStr path "~/" = true → env.userHomeDir = .ok home →
        LoadImage env path
          = (if hasPrefixStr (joinPath home (strDrop path 2)) "http://"
                || hasPrefixStr (joinPath home (strDrop path 2)) "https://" then
               loadImageFromURL env (joinPath home (strDrop path 2))
             else loadImageFromFile env (joinPath home (strDrop path 2))))
    ∧ (∀ path, hasPrefixStr path "~/" = false →
        (hasPrefixStr path "http://" || hasPrefixStr path "https://") = false →
        lookupFormat (strToLower (filepathExt path)) = none →
        LoadImage env path
          = .error ("unsupported image format: " ++ strToLower (filepathExt path)))
    ∧ (∀ (req : ChatRequest) (path : String), req.ImagePaths = [path] →
        (LoadImage env path).toOption = none →
        (currentTurn env req).1 = NewUserTextMessage req.UserInput
        ∧ (currentTurn env req).2 = 0) := by
  refine ⟨?_, ?_, ?_⟩
  · intro path home hpre hhome
    simp only [LoadImage, hpre, hhome, if_true]
  · intro path hpre hurl hext
    simp only [LoadImage, hpre, Bool.false_eq_true, if_false, hurl]
    simp only [loadImageFromFile, hext]
  · intro req path hreq hfail
    unfold currentTurn loadImages
    rw [hreq]
    simp [hfail]

/-- Witness for C9: with no filesystem, loading the sole reference
`photo.tiff` fails on its unsupported extension and the turn degrades to a
text-only message with zero images loaded. -/
theorem c9_local_image_loading_witness :
    LoadImage offlineEnv "photo.tiff" = .error "unsupported image format: .tiff"
    ∧ (currentTurn offlineEnv tiffReq).1 = NewUserTextMessage "hi"
    ∧ (currentTurn offlineEnv tiffReq).2 = 0 :=
  ⟨((c9_local_image_loading offlineEnv).2.1 "photo.tiff" (by decide) (by decide)
      (by decide)).trans (congrArg Except.error (by decide)),
   ((c9_local_image_loading offlineEnv).2.2 tiffReq "photo.tiff" (by decide) (by decide)).1,
   ((c9_local_image_loading offlineEnv).2.2 tiffReq "photo.tiff" (by decide) (by decide)).2⟩

/-! ### Remote image loading -/

/-- C7 counterexample: status 204 is 2xx-class, yet `LoadImage` fails on
it — the code requires status exactly 200 (`http.StatusOK`), not any 2xx
status. -/
theorem c7_status_counterexample :
    (204 / 100 = 2)
    ∧ (LoadImage status204Env "http://example.com/a.png").isOk = false := by
  decide

/-- C7 amended: a remote (http/https) load succeeds exactly when the GET
succeeds with status exactly 200 and the response body is read
successfully; on success the MIME type is the content-type header when
non-empty, else the extension lookup, else the generic "image/jpeg"
default. -/
theorem c7_remote_load_amended (env : MediaEnv) (url : String)
    (hurl : (hasPrefixStr url "http://" || hasPrefixStr url "https://") = true)
    (hnothome : hasPrefixStr url "~/" = false) :
    (LoadImage env url = loadImageFromURL env url)
    ∧ ((loadImageFromURL env url).isOk = true ↔
        ∃ resp data, env.httpGet url = .ok resp ∧ resp.statusCode = 200
          ∧ resp.body = .ok data)
    ∧ (∀ resp data, env.httpGet url = .ok resp → resp.statusCode = 200 →
        resp.body = .ok data →
        loadImageFromURL env url
          = .ok ⟨url,
              (if resp.contentType = "" then
                 (lookupFormat (strToLower (filepathExt url))).getD "image/jpeg"
               else resp.contentType), data⟩) := by
  refine ⟨?_, ?_, ?_⟩
  · unfold LoadImage
    rw [hnothome]
    simp only [Bool.false_eq_true, if_false]
    rw [hurl]
    simp only [if_true]
  · unfold loadImageFromURL
    cases hg : env.httpGet url with
    | error e =>
      dsimp only
      simp only [Except.isOk, Except.toBool]
      constructor
      · intro hfalse
        cases hfalse
      · rintro ⟨resp, d, hr, -, -⟩
        cases hr
    | ok resp =>
      dsimp only
      by_cases h200 : resp.statusCode = 200
      · rw [if_neg (by omega)]
        cases hb : resp.body with
        | error e =>
          dsimp only
          simp only [Except.isOk, Except.toBool]
          constructor
          · intro hfalse
            cases hfalse
          · rintro ⟨resp', d, hr, -, hb'⟩
            cases hr
            rw [hb] at hb'
            cases hb'
        | ok data =>
          dsimp only
          simp only [Except.isOk, Except.toBool, true_iff]
          exact ⟨resp, data, rfl, h200, hb⟩
      · rw [if_pos (by omega)]
        simp only [Except.isOk, Except.toBool]
        constructor
        · intro hfalse
          cases hfalse
        · rintro ⟨resp', d, hr, h200', -⟩
          cases hr
          exact absurd h200' h200
  · intro resp data hg h200 hb
    unfold loadImageFromURL
    rw [hg]
    dsimp only
    rw [if_neg (by omega), hb]
    dsimp only
    cases hlf : lookupFormat (strToLower (filepathExt url)) with
    | none =>
      by_cases hct : resp.contentType = "" <;> simp [hct, hlf, Option.getD]
    | some m =>
      by_cases hct : resp.contentType = "" <;> simp [hct, hlf, Option.getD]

/-- Witness for C7's amended statement: a GET that answers 200 with an
empty content-type on a `.png` URL succeeds and falls back to the
extension-derived MIME type. -/
theorem c7_remote_load_amended_witness :
    (LoadImage okHttpEnv "http://h/i.png").isOk = true
    ∧ loadImageFromURL okHttpEnv "http://h/i.png"
        = .ok ⟨"http://h/i.png",
            (if ("" : String) = "" then
               (lookupFormat (strToLower (filepathExt "http://h/i.png"))).getD "image/jpeg"
             else ""), [7]⟩ :=
  ⟨by
    rw [(c7_remote_load_amended okHttpEnv "http://h/i.png" (by decide) (by decide)).1]
    exact (c7_remote_load_amended okHttpEnv "http://h/i.png" (by decide)
      (by decide)).2.1.mpr ⟨⟨200, "", .ok [7]⟩, [7], rfl, rfl, rfl⟩,
   (c7_remote_load_amended okHttpEnv "http://h/i.png" (by decide) (by decide)).2.2
     ⟨200, "", .ok [7]⟩ [7] rfl rfl rfl⟩

/-! ### Snapshot persistence -/

theorem saveHistoryLoop_ok (env : DbEnv) (msgs : List Message) :
    ∀ staged out, saveHistoryLoop env staged msgs = .ok out →
      out = staged ++ msgs.map (rowOf env)
      ∧ ∀ m ∈ msgs, ∃ b, env.marshalContent m.content = .ok b := by
  induction msgs with
  | nil =>
    intro staged out h
    unfold saveHistoryLoop at h
    cases h
    simp
  | cons m ms ih =>
    intro staged out h
    unfold saveHistoryLoop at h
    cases hm : env.marshalContent m.content with
    | error e =>
      rw [hm] at h
      cases h
    | ok b =>
      rw [hm] at h
      dsimp only at h
      by_cases hins : env.insertOk m.role b
      · rw [if_pos hins] at h
        obtain ⟨ho, hall⟩ := ih _ _ h
        constructor
        · rw [ho, List.map_cons, List.append_assoc]
          have hrow : rowOf env m = (m.role, b) := by
            unfold rowOf
            rw [hm]
          rw [hrow]
          rfl
        · intro m' hm'
          rcases List.mem_cons.mp hm' with hm' | hm'
          · subst hm'
            exact ⟨b, hm⟩
          · exact hall m' hm'
      · rw [if_neg hins] at h
        cases h

/-- C10: `SaveHistory` is atomic — on any failing step (begin, delete,
prepare, a marshal, an insert, or the commit) the persisted table is left
exactly as it was; on success the table holds exactly one row per given
message, in order, carrying the message's role and its marshalled
content. -/
theorem c10_save_history_atomic (env : DbEnv) (table : List HistoryRow)
    (msgs : List Message) :
    ((SaveHistory env table msgs).2 ≠ none → (SaveHistory env table msgs).1 = table)
    ∧ ((SaveHistory env table msgs).2 = none →
        (SaveHistory env table msgs).1 = msgs.map (rowOf env)
        ∧ ∀ m ∈ msgs, ∃ b, env.marshalContent m.content = .ok b) := by
  unfold SaveHistory
  cases hbegin : env.beginOk with
  | false => simp
  | true =>
    cases hdel : env.deleteOk with
    | false => simp
    | true =>
      cases hprep : env.prepareOk with
      | false => simp
      | true =>
        simp only [Bool.not_true, Bool.false_eq_true, if_false]
        cases hloop : saveHistoryLoop env [] msgs with
        | error e => simp
        | ok staged =>
          cases hcommit : env.commitOk with
          | false => simp
          | true =>
            simp only [if_true]
            obtain ⟨ho, hall⟩ := saveHistoryLoop_ok env msgs [] staged hloop
            rw [List.nil_append] at ho
            exact ⟨fun hne => absurd rfl hne, fun _ => ⟨ho, hall⟩⟩

/-- Witness for C10: with every step succeeding, saving one user message
over an existing snapshot replaces the table with exactly that message's
row. -/
theorem c10_save_history_atomic_witness :
    (SaveHistory allOkDb [("user", "old")] [NewUserTextMessage "hi"]).1
      = [NewUserTextMessage "hi"].map (rowOf allOkDb) :=
  ((c10_save_history_atomic allOkDb [("user", "old")] [NewUserTextMessage "hi"]).2
    (by decide)).1

end TChat

